import Mathlib

/-!
Verification model of the Trigger-Word Mode Dispatcher
(`audio-to-text/speech_to_text/trigger_word_handler.py`).

The Python class `TriggerWordHandler` is embedded shallowly:

* Python strings are Lean `String`s (with `List Char` underneath); only the
  ASCII fragment of `str.lower`, `str.strip` and the regex classes `\w`, `\s`
  is modelled, which covers every keyword and transcript of the repository.
* The regular expressions compiled by the handler are all of the shape
  `\b<literal>\b` with `re.IGNORECASE`; they are modelled by an explicit
  whole-word search (`searchWordL`) and an explicit global substitution
  (`subWordCI`) over lists of characters.
* The mutable object state (`trigger_words`, `current_mode`, `current_file`,
  `buffer`) becomes the structure `HandlerState`; the filesystem visible to
  the handler (files under the output directory, append-only) is carried in
  the same structure as an association list from joined path to list of
  written lines.
* Nondeterministic or effectful inputs of a call — the wall-clock time used
  by `datetime.now().strftime`, whether the file append raises, whether the
  user callback raises — are an explicit `World` argument.
* The mode-change callback is modelled by the list of invocations the call
  performs (`StepResult.events`); exceptions raised by the callback or by the
  file append are modelled via `Except` and caught exactly where the Python
  `try/except` blocks sit.
* `trigger_patterns` is not modelled separately: the compiled pattern for a
  keyword is the pure function of the keyword `\b + re.escape(kw.lower()) + \b`,
  and the dictionary is consulted only for keywords whose table entry has a
  truthy filename, for which a pattern is always present.
-/

/-! ## Python character and string primitives (ASCII fragment) -/

/-- Python `str.strip` whitespace set (ASCII): space, tab, newline, carriage
return, vertical tab, form feed. -/
def pyIsSpace (c : Char) : Bool :=
  c.toNat = 32 || c.toNat = 9 || c.toNat = 10 || c.toNat = 13 ||
  c.toNat = 11 || c.toNat = 12

/-- Regex class `\w` (ASCII): letters, digits and underscore. -/
def isWordChar (c : Char) : Bool :=
  c.isAlpha || c.isDigit || c = '_'

/-- Python `str.lower` on one character (ASCII fragment). -/
def pyLowerChar (c : Char) : Char :=
  if 'A' ≤ c ∧ c ≤ 'Z' then Char.ofNat (c.toNat + 32) else c

/-- Python `str.lower` (ASCII fragment). -/
def pyLower (s : String) : String :=
  String.mk (s.data.map pyLowerChar)

/-- Strip `pyIsSpace` characters from both ends of a character list. -/
def stripList (l : List Char) : List Char :=
  ((l.dropWhile pyIsSpace).reverse.dropWhile pyIsSpace).reverse

/-- Python `str.strip()`. -/
def pyStrip (s : String) : String :=
  String.mk (stripList s.data)

/-- Python `str.rfind` for a single character: last index holding `c`,
`-1` when absent. -/
def pyRFindAux (c : Char) : List Char → Nat → Int → Int
  | [], _, acc => acc
  | x :: xs, i, acc => pyRFindAux c xs (i + 1) (if x = c then (i : Int) else acc)

def pyRFind (l : List Char) (c : Char) : Int :=
  pyRFindAux c l 0 (-1)

/-- Python `os.path.splitext` (posix): split off the extension at the last
dot, unless every character between the last path separator and that dot is
itself a dot. -/
def splitext (p : String) : String × String :=
  let l := p.data
  let sepIndex := pyRFind l '/'
  let dotIndex := pyRFind l '.'
  if sepIndex < dotIndex then
    let start : Nat := (sepIndex + 1).toNat
    let dn : Nat := dotIndex.toNat
    if (List.range (dn - start)).any (fun k =>
        match l.get? (start + k) with
        | some c => decide (c ≠ '.')
        | none => false) then
      (String.mk (l.take dn), String.mk (l.drop dn))
    else (p, "")
  else (p, "")

/-- Whether a string starts with `/` (the posix separator). -/
def startsWithSep (s : String) : Bool :=
  match s.data with
  | [] => false
  | c :: _ => c = '/'

/-- Whether a string ends with `/`. -/
def endsWithSep (s : String) : Bool :=
  match s.data.getLast? with
  | some c => decide (c = '/')
  | none => false

/-- Python `os.path.join` (posix) for two components. -/
def pyJoin (a b : String) : String :=
  if startsWithSep b then b
  else if a = "" ∨ endsWithSep a then a ++ b
  else a ++ "/" ++ b

/-- Wall-clock time as consumed by `datetime.now().strftime("%Y%m%d_%H%M%S")`. -/
structure PyTime where
  year : Nat
  month : Nat
  day : Nat
  hour : Nat
  minute : Nat
  second : Nat
deriving DecidableEq, Repr

/-- Zero-pad to two digits (strftime `%m`, `%d`, `%H`, `%M`, `%S`). -/
def pad2 (n : Nat) : String :=
  if n < 10 then "0" ++ toString n else toString n

/-- Zero-pad to four digits (strftime `%Y`). -/
def pad4 (n : Nat) : String :=
  if n < 10 then "000" ++ toString n
  else if n < 100 then "00" ++ toString n
  else if n < 1000 then "0" ++ toString n
  else toString n

/-- The handler's timestamp: `strftime("%Y%m%d_%H%M%S")`, year-month-day,
underscore, hour-minute-second. -/
def strftimeTimestamp (t : PyTime) : String :=
  pad4 t.year ++ pad2 t.month ++ pad2 t.day ++ "_" ++
  pad2 t.hour ++ pad2 t.minute ++ pad2 t.second

/-! ## Regex model: `\b<literal>\b` with `re.IGNORECASE`

All patterns the handler compiles are word-bounded literals.  A position `i`
of a character list is a word boundary when exactly one of the character
before `i` and the character at `i` is a `\w` character (positions outside
the list count as non-word). -/

/-- Whether the character at index `i` exists and is a word character. -/
def wordAt (l : List Char) (i : Nat) : Bool :=
  ((l[i]?).map isWordChar).getD false

/-- Regex `\b` at position `i` (between indices `i - 1` and `i`). -/
def boundaryAt (l : List Char) (i : Nat) : Bool :=
  (if i = 0 then false else wordAt l (i - 1)) != wordAt l i

/-- The literal `kw` occurs at position `i` of `l` with word boundaries on
both sides. -/
def matchWordAt (kw l : List Char) (i : Nat) : Bool :=
  decide ((l.drop i).take kw.length = kw) && boundaryAt l i &&
    boundaryAt l (i + kw.length)

/-- Whether `re.search` of `\b<kw>\b` succeeds anywhere in `l`. -/
def searchWordL (kw l : List Char) : Bool :=
  (List.range (l.length + 1)).any (matchWordAt kw l)

/-- String version of `searchWordL`; both sides must already be lowercase,
matching the handler which compiles patterns from `kw.lower()` and searches
the lowered transcript. -/
def searchWord (kw s : String) : Bool :=
  searchWordL kw.data s.data

/-- Start positions of the leftmost non-overlapping matches of `\b<kw>\b`
in `l`, as consumed by `re.sub`. -/
def matchPositions (kw l : List Char) : List Nat :=
  ((List.range (l.length + 1)).foldl
    (fun st i =>
      if st.2 ≤ i ∧ matchWordAt kw l i then (st.1 ++ [i], i + kw.length) else st)
    (([] : List Nat), 0)).1

/-- Python `re.sub(r'\b' + re.escape(kw) + r'\b', '', orig, flags=IGNORECASE)`
where `kw` is already lowercase: matches are located on the lowered copy of
`orig` and the matched spans are removed from `orig`.  A zero-width pattern
(empty keyword) substitutes the empty replacement and leaves the text
unchanged. -/
def subWordCI (kw orig : List Char) : List Char :=
  if kw = [] then orig
  else
    let lowered := orig.map pyLowerChar
    let ps := matchPositions kw lowered
    (List.range orig.length).filterMap (fun i =>
      if ps.any (fun p => decide (p ≤ i) && decide (i < p + kw.length)) then none
      else orig.get? i)

/-! ## Handler state -/

/-- Immutable constructor arguments of `TriggerWordHandler` (the trigger
table itself is runtime-mutable and lives in `HandlerState`). -/
structure Config where
  output_directory : String
  enable_timestamps : Bool
  auto_cleanup : Bool
  /-- Whether an `on_mode_change` callback was supplied. -/
  hasCallback : Bool
deriving DecidableEq, Repr

/-- Effectful inputs of one `process_transcript` call: the current wall-clock
time, whether the file append raises, whether the user callback raises. -/
structure World where
  time : PyTime
  writeFails : Bool
  cbRaises : Bool
deriving DecidableEq, Repr

/-- Files below the output directory, as joined path to appended lines. -/
abbrev Files := List (String × List String)

/-- Mutable state of a `TriggerWordHandler`, plus the filesystem it appends
to.  `buffer` is initialized and reset but never otherwise used by the
source. -/
structure HandlerState where
  trigger_words : List (String × Option String)
  current_mode : Option String
  current_file : Option String
  buffer : List String
  files : Files
deriving DecidableEq, Repr

/-- One `on_mode_change` invocation: `(new_mode, old_mode, trigger_word)`. -/
abbrev Event := Option String × Option String × Option String

/-- Result of one `process_transcript` call. -/
structure StepResult where
  state : HandlerState
  triggered : Bool
  events : List Event
deriving DecidableEq, Repr

/-- The default trigger table of the constructor. -/
def defaultTable : List (String × Option String) :=
  [("code", some "code.txt"), ("description", some "description.txt"),
   ("stop", none)]

/-- State right after construction: given table, no mode, no file, empty
buffer; the filesystem is taken to be empty of handler files. -/
def initState (table : List (String × Option String)) : HandlerState :=
  { trigger_words := table, current_mode := none, current_file := none,
    buffer := [], files := [] }

/-- Python truthiness of an optional string: `None` and `""` are falsy. -/
def strTruthy : Option String → Bool
  | none => false
  | some x => decide (x ≠ "")

/-- Dictionary lookup `table[k]` as used on `trigger_words`. -/
def lookupTable (table : List (String × Option String)) (k : String) :
    Option (Option String) :=
  (table.find? (fun p => p.1 = k)).map Prod.snd

/-- Method `_get_filename`: insert `_<timestamp>` before the extension when
timestamps are enabled, otherwise return the base name unchanged. -/
def pyGetFilename (cfg : Config) (t : PyTime) (base : String) : String :=
  if cfg.enable_timestamps then
    (splitext base).1 ++ "_" ++ strftimeTimestamp t ++ (splitext base).2
  else base

/-- Method `_cleanup_trigger_word`: when auto-cleanup is enabled, delete
every word-bounded occurrence of the trigger word (case-insensitively),
strip, delete leading characters matching `[^\w\s]+`, and strip again. -/
def cleanupTriggerWord (cfg : Config) (text trigger : String) : String :=
  if cfg.auto_cleanup then
    let cleaned := pyStrip (String.mk (subWordCI (pyLower trigger).data text.data))
    pyStrip (String.mk (cleaned.data.dropWhile
      (fun c => !(isWordChar c) && !(pyIsSpace c))))
  else text

/-- Append one line to a file, creating the file when absent
(`open(filepath, 'a')` followed by `f.write(text + "\n")`). -/
def appendLine (files : Files) (path : String) (line : String) : Files :=
  if files.any (fun p => p.1 = path) then
    files.map (fun p => if p.1 = path then (p.1, p.2 ++ [line]) else p)
  else files ++ [(path, [line])]

/-- The raw filesystem append, which may raise. -/
def rawAppend (fails : Bool) (files : Files) (path line : String) :
    Except Unit Files :=
  if fails then Except.error () else Except.ok (appendLine files path line)

/-- Method `_write_to_file`: skip when no truthy current file or the text
strips to nothing; otherwise append under the output directory, catching any
exception (the fragment is then dropped and the files are unchanged). -/
def writeToFile (w : World) (outputDir : String) (cf : Option String)
    (files : Files) (text : String) : Files :=
  match cf with
  | none => files
  | some f =>
    if f = "" ∨ pyStrip text = "" then files
    else
      match rawAppend w.writeFails files (pyJoin outputDir f) text with
      | Except.ok fs => fs
      | Except.error _ => files

/-- The user callback invocation, which may raise. -/
def invokeCallback (hasCb raises : Bool) : Except Unit Unit :=
  if hasCb && raises then Except.error () else Except.ok ()

/-- A `try/except` block whose handler only logs: the result is the same
whether or not the wrapped action raised. -/
def catchUnit {α : Type} (e : Except Unit Unit) (a : α) : α :=
  match e with
  | Except.ok _ => a
  | Except.error _ => a

/-- The `current_file` update of `_switch_mode` for a given new mode. -/
def switchFile (cfg : Config) (w : World) (s : HandlerState) :
    Option String → Option String
  | none => none
  | some m =>
    if m = "" then none
    else
      match lookupTable s.trigger_words m with
      | some (some f) => some (pyGetFilename cfg w.time f)
      | some none => none
      | none => none

/-- Method `_switch_mode`: no-op when the new mode equals the current one;
otherwise update `current_mode`, recompute `current_file` (only a truthy
mode that is a table key gets a file; a table value of `None` would make the
Python raise inside `_get_filename`, a branch unreachable from
`process_transcript` because the scan requires a truthy filename, modelled
as no file), then invoke the callback inside `try/except`: an exception from
it is caught and logged, the state update stands either way. -/
def switchMode (cfg : Config) (w : World) (s : HandlerState)
    (newMode trigger : Option String) : HandlerState × List Event :=
  if newMode = s.current_mode then (s, [])
  else
    let old := s.current_mode
    let s' := { s with current_mode := newMode,
                       current_file := switchFile cfg w s newMode }
    let evs := if cfg.hasCallback then [(newMode, old, trigger)] else []
    catchUnit (invokeCallback cfg.hasCallback w.cbRaises) (s', evs)

/-- The scan filter of `process_transcript`: skip the key `"stop"` and
entries without a truthy filename, then search the keyword's pattern in the
lowered transcript. -/
def triggerPred (tl : String) (p : String × Option String) : Bool :=
  decide (p.1 ≠ "stop") && strTruthy p.2 && searchWord (pyLower p.1) tl

/-- First table entry, in insertion order, whose trigger pattern matches. -/
def findTrigger (table : List (String × Option String)) (tl : String) :
    Option (String × Option String) :=
  table.find? (triggerPred tl)

/-- Method `process_transcript`. -/
def processTranscript (cfg : Config) (w : World) (s : HandlerState)
    (transcript : String) : StepResult :=
  if pyStrip transcript = "" then ⟨s, false, []⟩
  else
    let tl := pyStrip (pyLower transcript)
    if searchWord "stop" tl then
      if strTruthy s.current_mode then
        let r := switchMode cfg w s none (some "stop")
        ⟨r.1, true, r.2⟩
      else ⟨s, false, []⟩
    else
      match findTrigger s.trigger_words tl with
      | some p =>
        let r := switchMode cfg w s (some p.1) (some p.1)
        ⟨r.1, true, r.2⟩
      | none =>
        if strTruthy s.current_mode ∧ strTruthy s.current_file then
          let cleaned := cleanupTriggerWord cfg transcript
            (s.current_mode.getD "")
          if cleaned = "" then ⟨s, false, []⟩
          else
            ⟨{ s with files := (writeToFile w cfg.output_directory
                s.current_file s.files cleaned) }, false, []⟩
        else ⟨s, false, []⟩

/-- Snapshot returned by `get_status`. -/
structure Status where
  current_mode : Option String
  current_file : Option String
  trigger_words : List (String × Option String)
  output_directory : String
deriving DecidableEq, Repr

/-- Method `get_status`. -/
def getStatus (cfg : Config) (s : HandlerState) : Status :=
  ⟨s.current_mode, s.current_file, s.trigger_words, cfg.output_directory⟩

/-- Method `reset`: clear mode, file and buffer; files are untouched. -/
def resetState (s : HandlerState) : HandlerState :=
  { s with current_mode := none, current_file := none, buffer := [] }

/-- Dictionary assignment `d[k] = v`: update in place when the key exists
(keeping insertion order), otherwise append at the end. -/
def assocSet (l : List (String × Option String)) (k : String)
    (v : Option String) : List (String × Option String) :=
  if l.any (fun p => p.1 = k) then
    l.map (fun p => if p.1 = k then (k, v) else p)
  else l ++ [(k, v)]

/-- Method `add_trigger_word` (the pattern dictionary is determined by the
table, see the header note). -/
def addTriggerWord (s : HandlerState) (trigger : String)
    (filename : Option String) : HandlerState :=
  { s with trigger_words := assocSet s.trigger_words trigger filename }

/-- Method `remove_trigger_word`. -/
def removeTriggerWord (s : HandlerState) (trigger : String) : HandlerState :=
  { s with trigger_words := s.trigger_words.filter (fun p => p.1 ≠ trigger) }

/-- Method `get_output_files`: for every table value that is truthy, the
joined path when such a file exists. -/
def getOutputFiles (cfg : Config) (s : HandlerState) : List String :=
  s.trigger_words.filterMap (fun p =>
    match p.2 with
    | some f =>
      if f = "" then none
      else
        let fp := pyJoin cfg.output_directory f
        if s.files.any (fun q => q.1 = fp) then some fp else none
    | none => none)

/-- Fold a sequence of `process_transcript` calls. -/
def runProc (cfg : Config) (inputs : List (World × String))
    (s : HandlerState) : HandlerState :=
  inputs.foldl (fun st p => (processTranscript cfg p.1 st p.2).state) s

/-! ## Concrete instances used by witnesses and counterexamples -/

/-- The configuration of `create_default_handler(".")`: no timestamps,
auto-cleanup on, callback installed. -/
def cfg0 : Config := ⟨".", false, true, true⟩

/-- Same, but with `enable_timestamps=True`. -/
def cfgTs : Config := ⟨".", true, true, true⟩

/-- A fixed benign world: noon of 2026-01-01, no failures. -/
def w0 : World := ⟨⟨2026, 1, 1, 12, 0, 0⟩, false, false⟩

/-- The state after processing the single fragment `"code"` from a fresh
default handler: code mode, file `code.txt`. -/
def sCode : HandlerState :=
  (processTranscript cfg0 w0 (initState defaultTable) "code").state

/-! ## Basic lemmas -/

lemma catchUnit_eq {α : Type} (e : Except Unit Unit) (a : α) : catchUnit e a = a := by
  cases e <;> rfl

lemma switchMode_eq (cfg : Config) (w : World) (s : HandlerState)
    (nm tr : Option String) :
    switchMode cfg w s nm tr =
      if nm = s.current_mode then (s, [])
      else ({ s with current_mode := nm, current_file := switchFile cfg w s nm },
            if cfg.hasCallback then [(nm, s.current_mode, tr)] else []) := by
  unfold switchMode
  split
  · rfl
  · rw [catchUnit_eq]

lemma strTruthy_some {o : Option String} (h : strTruthy o = true) :
    ∃ m, o = some m ∧ m ≠ "" := by
  cases o with
  | none => simp [strTruthy] at h
  | some m => exact ⟨m, rfl, by simpa [strTruthy] using h⟩

lemma writeToFile_fails (tm : PyTime) (cb : Bool) (outputDir : String)
    (cf : Option String) (files : Files) (text : String) :
    writeToFile ⟨tm, true, cb⟩ outputDir cf files text = files := by
  cases cf with
  | none => rfl
  | some f =>
    unfold writeToFile rawAppend
    simp

lemma switchFile_world (cfg : Config) (w w' : World) (h : w.time = w'.time)
    (s : HandlerState) (nm : Option String) :
    switchFile cfg w s nm = switchFile cfg w' s nm := by
  cases nm with
  | none => rfl
  | some m => unfold switchFile; rw [h]

lemma switchMode_world (cfg : Config) (w w' : World) (h : w.time = w'.time)
    (s : HandlerState) (nm tr : Option String) :
    switchMode cfg w s nm tr = switchMode cfg w' s nm tr := by
  rw [switchMode_eq, switchMode_eq, switchFile_world cfg w w' h]

lemma writeToFile_world (w w' : World) (h : w.writeFails = w'.writeFails)
    (outputDir : String) (cf : Option String) (files : Files) (text : String) :
    writeToFile w outputDir cf files text = writeToFile w' outputDir cf files text := by
  unfold writeToFile rawAppend
  rw [h]

/-- Claim C8: `reset` is idempotent, `get_status` after a reset reports no
mode and no file, and no files are deleted (the filesystem is unchanged);
this holds from every prior state. -/
theorem reset_idempotent (cfg : Config) (s : HandlerState) :
    resetState (resetState s) = resetState s ∧
    (getStatus cfg (resetState s)).current_mode = none ∧
    (getStatus cfg (resetState s)).current_file = none ∧
    (resetState s).files = s.files :=
  ⟨rfl, rfl, rfl, rfl⟩

/-! ## Branch evaluation lemmas for `processTranscript` -/

lemma processTranscript_blank (cfg : Config) (w : World) (s : HandlerState)
    (t : String) (h : pyStrip t = "") :
    processTranscript cfg w s t = ⟨s, false, []⟩ := by
  unfold processTranscript
  rw [if_pos h]

lemma processTranscript_stop_active (cfg : Config) (w : World)
    (s : HandlerState) (t : String) (hne : pyStrip t ≠ "")
    (hstop : searchWord "stop" (pyStrip (pyLower t)) = true)
    (hmode : strTruthy s.current_mode = true) :
    processTranscript cfg w s t =
      ⟨(switchMode cfg w s none (some "stop")).1, true,
       (switchMode cfg w s none (some "stop")).2⟩ := by
  unfold processTranscript
  rw [if_neg hne]
  simp only [hstop, hmode, if_true]

lemma processTranscript_stop_inactive (cfg : Config) (w : World)
    (s : HandlerState) (t : String) (hne : pyStrip t ≠ "")
    (hstop : searchWord "stop" (pyStrip (pyLower t)) = true)
    (hmode : strTruthy s.current_mode = false) :
    processTranscript cfg w s t = ⟨s, false, []⟩ := by
  unfold processTranscript
  rw [if_neg hne]
  simp only [hstop, hmode, if_true, Bool.false_eq_true, if_false]

lemma processTranscript_trigger (cfg : Config) (w : World) (s : HandlerState)
    (t : String) (p : String × Option String) (hne : pyStrip t ≠ "")
    (hstop : searchWord "stop" (pyStrip (pyLower t)) = false)
    (hfind : findTrigger s.trigger_words (pyStrip (pyLower t)) = some p) :
    processTranscript cfg w s t =
      ⟨(switchMode cfg w s (some p.1) (some p.1)).1, true,
       (switchMode cfg w s (some p.1) (some p.1)).2⟩ := by
  unfold processTranscript
  rw [if_neg hne]
  simp only [hstop, Bool.false_eq_true, if_false, hfind]

lemma processTranscript_nomatch_active (cfg : Config) (w : World)
    (s : HandlerState) (t : String) (hne : pyStrip t ≠ "")
    (hstop : searchWord "stop" (pyStrip (pyLower t)) = false)
    (hfind : findTrigger s.trigger_words (pyStrip (pyLower t)) = none)
    (hm : strTruthy s.current_mode = true)
    (hf : strTruthy s.current_file = true) :
    processTranscript cfg w s t =
      (if cleanupTriggerWord cfg t (s.current_mode.getD "") = "" then
        ⟨s, false, []⟩
       else
        ⟨{ s with files := (writeToFile w cfg.output_directory s.current_file
            s.files (cleanupTriggerWord cfg t (s.current_mode.getD ""))) },
         false, []⟩) := by
  unfold processTranscript
  rw [if_neg hne]
  simp only [hstop, Bool.false_eq_true, if_false, hfind, hm, hf, and_self,
    if_true]

lemma processTranscript_nomatch_inactive (cfg : Config) (w : World)
    (s : HandlerState) (t : String) (hne : pyStrip t ≠ "")
    (hstop : searchWord "stop" (pyStrip (pyLower t)) = false)
    (hfind : findTrigger s.trigger_words (pyStrip (pyLower t)) = none)
    (hmf : ¬(strTruthy s.current_mode = true ∧ strTruthy s.current_file = true)) :
    processTranscript cfg w s t = ⟨s, false, []⟩ := by
  unfold processTranscript
  rw [if_neg hne]
  simp only [hstop, Bool.false_eq_true, if_false, hfind]
  rw [if_neg hmf]

lemma switchMode_files (cfg : Config) (w : World) (s : HandlerState)
    (nm tr : Option String) : (switchMode cfg w s nm tr).1.files = s.files := by
  rw [switchMode_eq]
  split
  · rfl
  · rfl

lemma processTranscript_world (cfg : Config) (w w' : World) (s : HandlerState)
    (t : String) (ht : w.time = w'.time) (hw : w.writeFails = w'.writeFails) :
    processTranscript cfg w s t = processTranscript cfg w' s t := by
  by_cases h1 : pyStrip t = ""
  · rw [processTranscript_blank cfg w s t h1, processTranscript_blank cfg w' s t h1]
  · by_cases h2 : searchWord "stop" (pyStrip (pyLower t)) = true
    · by_cases h3 : strTruthy s.current_mode = true
      · rw [processTranscript_stop_active cfg w s t h1 h2 h3,
            processTranscript_stop_active cfg w' s t h1 h2 h3,
            switchMode_world cfg w w' ht]
      · rw [processTranscript_stop_inactive cfg w s t h1 h2
              (Bool.not_eq_true _ ▸ h3),
            processTranscript_stop_inactive cfg w' s t h1 h2
              (Bool.not_eq_true _ ▸ h3)]
    · cases hfind : findTrigger s.trigger_words (pyStrip (pyLower t)) with
      | some p =>
        rw [processTranscript_trigger cfg w s t p h1
              (Bool.not_eq_true _ ▸ h2) hfind,
            processTranscript_trigger cfg w' s t p h1
              (Bool.not_eq_true _ ▸ h2) hfind,
            switchMode_world cfg w w' ht]
      | none =>
        by_cases h4 : strTruthy s.current_mode = true ∧ strTruthy s.current_file = true
        · rw [processTranscript_nomatch_active cfg w s t h1
                (Bool.not_eq_true _ ▸ h2) hfind h4.1 h4.2,
              processTranscript_nomatch_active cfg w' s t h1
                (Bool.not_eq_true _ ▸ h2) hfind h4.1 h4.2,
              writeToFile_world w w' hw]
        · rw [processTranscript_nomatch_inactive cfg w s t h1
                (Bool.not_eq_true _ ▸ h2) hfind h4,
              processTranscript_nomatch_inactive cfg w' s t h1
                (Bool.not_eq_true _ ▸ h2) hfind h4]

/-- Claim C6: no failure after construction escapes `process_transcript`.
An exception raised by the user callback is caught there: the call returns
the very same result (the mode transition, including the `current_file`
update and the return value, completes unchanged).  A failing file append is
caught: the call returns the same mode, file, table, triggered flag and
events as a successful run, and the fragment is dropped silently (the
filesystem stays as it was before the call), leaving the dispatcher usable
for subsequent fragments. -/
theorem process_failures_contained (cfg : Config) (s : HandlerState)
    (t : String) (tm : PyTime) :
    (processTranscript cfg ⟨tm, false, true⟩ s t =
      processTranscript cfg ⟨tm, false, false⟩ s t) ∧
    ((processTranscript cfg ⟨tm, true, false⟩ s t).state =
      { (processTranscript cfg ⟨tm, false, false⟩ s t).state with
          files := s.files } ∧
     (processTranscript cfg ⟨tm, true, false⟩ s t).triggered =
      (processTranscript cfg ⟨tm, false, false⟩ s t).triggered ∧
     (processTranscript cfg ⟨tm, true, false⟩ s t).events =
      (processTranscript cfg ⟨tm, false, false⟩ s t).events) := by
  refine ⟨processTranscript_world cfg _ _ s t rfl rfl, ?_⟩
  by_cases h1 : pyStrip t = ""
  · rw [processTranscript_blank cfg _ s t h1, processTranscript_blank cfg _ s t h1]
    exact ⟨rfl, rfl, rfl⟩
  · by_cases h2 : searchWord "stop" (pyStrip (pyLower t)) = true
    · by_cases h3 : strTruthy s.current_mode = true
      · rw [processTranscript_stop_active cfg _ s t h1 h2 h3,
            processTranscript_stop_active cfg _ s t h1 h2 h3,
            switchMode_world cfg ⟨tm, true, false⟩ ⟨tm, false, false⟩ rfl]
        refine ⟨?_, rfl, rfl⟩
        have hfl := switchMode_files cfg ⟨tm, false, false⟩ s none (some "stop")
        rw [← hfl]
      · rw [processTranscript_stop_inactive cfg _ s t h1 h2
              (Bool.not_eq_true _ ▸ h3),
            processTranscript_stop_inactive cfg _ s t h1 h2
              (Bool.not_eq_true _ ▸ h3)]
        exact ⟨rfl, rfl, rfl⟩
    · cases hfind : findTrigger s.trigger_words (pyStrip (pyLower t)) with
      | some p =>
        rw [processTranscript_trigger cfg _ s t p h1
              (Bool.not_eq_true _ ▸ h2) hfind,
            processTranscript_trigger cfg _ s t p h1
              (Bool.not_eq_true _ ▸ h2) hfind,
            switchMode_world cfg ⟨tm, true, false⟩ ⟨tm, false, false⟩ rfl]
        refine ⟨?_, rfl, rfl⟩
        have hfl := switchMode_files cfg ⟨tm, false, false⟩ s (some p.1) (some p.1)
        rw [← hfl]
      | none =>
        by_cases h4 : strTruthy s.current_mode = true ∧ strTruthy s.current_file = true
        · rw [processTranscript_nomatch_active cfg _ s t h1
                (Bool.not_eq_true _ ▸ h2) hfind h4.1 h4.2,
              processTranscript_nomatch_active cfg _ s t h1
                (Bool.not_eq_true _ ▸ h2) hfind h4.1 h4.2]
          split
          · exact ⟨rfl, rfl, rfl⟩
          · rw [writeToFile_fails]
            exact ⟨rfl, rfl, rfl⟩
        · rw [processTranscript_nomatch_inactive cfg _ s t h1
                (Bool.not_eq_true _ ▸ h2) hfind h4,
              processTranscript_nomatch_inactive cfg _ s t h1
                (Bool.not_eq_true _ ▸ h2) hfind h4]
          exact ⟨rfl, rfl, rfl⟩

/-- Claim C2: a transcript containing the whole word "stop" (any case),
while a mode is active, deactivates it — `current_mode` and `current_file`
become none, everything else unchanged (in particular no file write), the
callback fires with `(None, old_mode, "stop")`, and the call returns true —
no matter what other trigger keywords co-occur in the fragment; while no
mode is active the same transcript is a pure no-op: unchanged state, no
events, no write, return false. -/
theorem stop_word_behavior (cfg : Config) (w : World) (s : HandlerState)
    (t : String) (hcb : cfg.hasCallback = true) (hne : pyStrip t ≠ "")
    (hstop : searchWord "stop" (pyStrip (pyLower t)) = true) :
    (strTruthy s.current_mode = true →
      (processTranscript cfg w s t).state =
        { s with current_mode := none, current_file := none } ∧
      (processTranscript cfg w s t).triggered = true ∧
      (processTranscript cfg w s t).events =
        [(none, s.current_mode, some "stop")]) ∧
    (strTruthy s.current_mode = false →
      processTranscript cfg w s t = ⟨s, false, []⟩) := by
  constructor
  · intro h3
    rw [processTranscript_stop_active cfg w s t hne hstop h3, switchMode_eq]
    obtain ⟨m, hm, -⟩ := strTruthy_some h3
    rw [if_neg (by rw [hm]; exact fun hc => Option.noConfusion hc)]
    exact ⟨rfl, rfl, by rw [hcb]; rfl⟩
  · intro h3
    exact processTranscript_stop_inactive cfg w s t hne hstop h3

/-- Witness for C2 at concrete inputs: in code mode, the fragment
"Please STOP the code now" (which also contains the trigger word "code")
deactivates the mode, fires the callback once with
`(None, "code", "stop")` and returns true; from the initial state the
fragment "stop" is a pure no-op returning false. -/
theorem stop_word_behavior_witness :
    ((processTranscript cfg0 w0 sCode "Please STOP the code now").state =
      { sCode with current_mode := none, current_file := none } ∧
     (processTranscript cfg0 w0 sCode "Please STOP the code now").triggered = true ∧
     (processTranscript cfg0 w0 sCode "Please STOP the code now").events =
      [(none, some "code", some "stop")]) ∧
    processTranscript cfg0 w0 (initState defaultTable) "stop" =
      ⟨initState defaultTable, false, []⟩ := by
  have h := stop_word_behavior cfg0 w0 sCode "Please STOP the code now" rfl
    (by decide) (by decide)
  have h2 := h.1 (by decide)
  have hc : sCode.current_mode = some "code" := by decide
  have h' := stop_word_behavior cfg0 w0 (initState defaultTable) "stop" rfl
    (by decide) (by decide)
  exact ⟨⟨h2.1, h2.2.1, by rw [h2.2.2, hc]⟩, h'.2 (by decide)⟩

/-- Claim C4 (amended part): when mode `K` is already active and the scan
selects `K` again, the whole call is a no-op on the state — `current_file`
unchanged, filename not recomputed, no callback invocation — but the call
still returns true. -/
theorem same_mode_retrigger_noop (cfg : Config) (w : World) (s : HandlerState)
    (t K : String) (F : Option String) (hne : pyStrip t ≠ "")
    (hstop : searchWord "stop" (pyStrip (pyLower t)) = false)
    (hfind : findTrigger s.trigger_words (pyStrip (pyLower t)) = some (K, F))
    (hmode : s.current_mode = some K) :
    processTranscript cfg w s t = ⟨s, true, []⟩ := by
  rw [processTranscript_trigger cfg w s t (K, F) hne hstop hfind, switchMode_eq,
      if_pos (by rw [hmode])]

/-- Counterexample to C4 as stated: re-triggering the already-active "code"
mode leaves the state untouched and fires no callback, yet the call still
returns true — it counts as "triggered" even though no different-mode path
was taken. -/
theorem same_mode_retrigger_cex :
    (processTranscript cfg0 w0 sCode "code").triggered = true ∧
    sCode.current_mode = some "code" ∧
    (processTranscript cfg0 w0 sCode "code").state = sCode ∧
    (processTranscript cfg0 w0 sCode "code").events = [] := by decide

/-- Witness for the amended C4 at concrete inputs. -/
theorem same_mode_retrigger_noop_witness :
    processTranscript cfg0 w0 sCode "code" = ⟨sCode, true, []⟩ :=
  same_mode_retrigger_noop cfg0 w0 sCode "code" "code" (some "code.txt")
    (by decide) (by decide) (by decide) (by decide)

/-! ## Word-boundary decomposition lemmas

A transcript that consists of a single word surrounded only by non-word
characters matches exactly the patterns of that word. -/

lemma wordAt_true_iff (A K B : List Char)
    (hA : ∀ c ∈ A, isWordChar c = false) (hB : ∀ c ∈ B, isWordChar c = false)
    (hK : ∀ c ∈ K, isWordChar c = true) (i : Nat) :
    wordAt (A ++ K ++ B) i = true ↔ A.length ≤ i ∧ i < A.length + K.length := by
  unfold wordAt
  rw [List.append_assoc]
  rcases Nat.lt_or_ge i A.length with h | h
  · rw [List.getElem?_append_left h, List.getElem?_eq_getElem h]
    simp only [Option.map_some', Option.getD_some]
    rw [hA _ (List.getElem_mem h)]
    simp only [Bool.false_eq_true, false_iff]
    omega
  · rw [List.getElem?_append_right h]
    rcases Nat.lt_or_ge (i - A.length) K.length with h2 | h2
    · rw [List.getElem?_append_left h2, List.getElem?_eq_getElem h2]
      simp only [Option.map_some', Option.getD_some]
      rw [hK _ (List.getElem_mem h2)]
      simp only [true_iff]
      omega
    · rw [List.getElem?_append_right h2]
      rcases hc : B[i - A.length - K.length]? with _ | c
      · simp only [Option.map_none', Option.getD_none, Bool.false_eq_true,
          false_iff]
        omega
      · have hcB : c ∈ B := by
          obtain ⟨hlt, hval⟩ := List.getElem?_eq_some.1 hc
          exact hval ▸ List.getElem_mem hlt
        simp only [Option.map_some', Option.getD_some]
        rw [hB _ hcB]
        simp only [Bool.false_eq_true, false_iff]
        omega

lemma boundaryAt_start (A K B : List Char)
    (hA : ∀ c ∈ A, isWordChar c = false) (hB : ∀ c ∈ B, isWordChar c = false)
    (hK : ∀ c ∈ K, isWordChar c = true) (hKne : K ≠ []) :
    boundaryAt (A ++ K ++ B) A.length = true := by
  have hKpos : 0 < K.length := List.length_pos.2 hKne
  unfold boundaryAt
  have h0 : wordAt (A ++ K ++ B) A.length = true :=
    (wordAt_true_iff A K B hA hB hK _).2 ⟨Nat.le_refl _, by omega⟩
  rw [h0]
  rcases Nat.eq_zero_or_pos A.length with hz | hz
  · rw [if_pos hz]
    rfl
  · rw [if_neg (by omega)]
    have hprev : wordAt (A ++ K ++ B) (A.length - 1) = false := by
      rw [Bool.eq_false_iff]
      intro hcontra
      have := (wordAt_true_iff A K B hA hB hK _).1 hcontra
      omega
    rw [hprev]
    rfl

lemma boundaryAt_end (A K B : List Char)
    (hA : ∀ c ∈ A, isWordChar c = false) (hB : ∀ c ∈ B, isWordChar c = false)
    (hK : ∀ c ∈ K, isWordChar c = true) (hKne : K ≠ []) :
    boundaryAt (A ++ K ++ B) (A.length + K.length) = true := by
  have hKpos : 0 < K.length := List.length_pos.2 hKne
  unfold boundaryAt
  have hr : wordAt (A ++ K ++ B) (A.length + K.length) = false := by
    rw [Bool.eq_false_iff]
    intro hcontra
    have := (wordAt_true_iff A K B hA hB hK _).1 hcontra
    omega
  have hl : wordAt (A ++ K ++ B) (A.length + K.length - 1) = true :=
    (wordAt_true_iff A K B hA hB hK _).2 (by omega)
  rw [hr, if_neg (by omega), hl]
  rfl

lemma matchWordAt_self (A K B : List Char)
    (hA : ∀ c ∈ A, isWordChar c = false) (hB : ∀ c ∈ B, isWordChar c = false)
    (hK : ∀ c ∈ K, isWordChar c = true) (hKne : K ≠ []) :
    matchWordAt K (A ++ K ++ B) A.length = true := by
  have hocc : (((A ++ K ++ B).drop A.length).take K.length) = K := by
    rw [List.append_assoc, List.drop_left, List.take_left]
  unfold matchWordAt
  rw [hocc, boundaryAt_start A K B hA hB hK hKne,
      boundaryAt_end A K B hA hB hK hKne]
  simp

lemma searchWordL_self (A K B : List Char)
    (hA : ∀ c ∈ A, isWordChar c = false) (hB : ∀ c ∈ B, isWordChar c = false)
    (hK : ∀ c ∈ K, isWordChar c = true) (hKne : K ≠ []) :
    searchWordL K (A ++ K ++ B) = true := by
  unfold searchWordL
  rw [List.any_eq_true]
  refine ⟨A.length, List.mem_range.2 ?_, matchWordAt_self A K B hA hB hK hKne⟩
  simp only [List.length_append]
  omega

lemma searchWordL_unique (kw A K B : List Char)
    (hA : ∀ c ∈ A, isWordChar c = false) (hB : ∀ c ∈ B, isWordChar c = false)
    (hK : ∀ c ∈ K, isWordChar c = true) (_hKne : K ≠ [])
    (hkw : ∀ c ∈ kw, isWordChar c = true) (hkwne : kw ≠ [])
    (h : searchWordL kw (A ++ K ++ B) = true) : kw = K := by
  have hkwpos : 0 < kw.length := List.length_pos.2 hkwne
  unfold searchWordL at h
  rw [List.any_eq_true] at h
  obtain ⟨i, _, hm⟩ := h
  unfold matchWordAt at hm
  rw [Bool.and_eq_true, Bool.and_eq_true] at hm
  obtain ⟨⟨hocc, hb1⟩, hb2⟩ := hm
  rw [decide_eq_true_iff] at hocc
  have hchar : ∀ j, j < kw.length → (A ++ K ++ B)[i + j]? = kw[j]? := by
    intro j hj
    conv_rhs => rw [← hocc]
    rw [List.getElem?_take, if_pos hj, List.getElem?_drop]
  have hword : ∀ j, j < kw.length → wordAt (A ++ K ++ B) (i + j) = true := by
    intro j hj
    unfold wordAt
    rw [hchar j hj, List.getElem?_eq_getElem hj]
    simp only [Option.map_some', Option.getD_some]
    exact hkw _ (List.getElem_mem hj)
  have hpos : ∀ j, j < kw.length →
      A.length ≤ i + j ∧ i + j < A.length + K.length := fun j hj =>
    (wordAt_true_iff A K B hA hB hK _).1 (hword j hj)
  have h0 : A.length ≤ i ∧ i < A.length + K.length := by
    have := hpos 0 hkwpos
    omega
  have hlast : A.length ≤ i + (kw.length - 1) ∧
      i + (kw.length - 1) < A.length + K.length := hpos _ (by omega)
  -- the left boundary forces i = A.length
  unfold boundaryAt at hb1
  rw [bne_iff_ne] at hb1
  have hw0 : wordAt (A ++ K ++ B) i = true := by
    have := hword 0 hkwpos
    simpa using this
  rw [hw0] at hb1
  have hleft : (if i = 0 then false else wordAt (A ++ K ++ B) (i - 1)) = false :=
    Bool.eq_false_iff.2 hb1
  have hi : i = A.length := by
    by_contra hne
    have higt : A.length < i := by omega
    rw [if_neg (by omega)] at hleft
    have : wordAt (A ++ K ++ B) (i - 1) = true :=
      (wordAt_true_iff A K B hA hB hK _).2 (by omega)
    rw [this] at hleft
    exact Bool.noConfusion hleft
  -- the right boundary forces i + kw.length = A.length + K.length
  unfold boundaryAt at hb2
  rw [bne_iff_ne] at hb2
  have hwl : wordAt (A ++ K ++ B) (i + kw.length - 1) = true := by
    have := hword (kw.length - 1) (by omega)
    have he : i + (kw.length - 1) = i + kw.length - 1 := by omega
    rwa [he] at this
  rw [if_neg (by omega), hwl] at hb2
  have hright : wordAt (A ++ K ++ B) (i + kw.length) = false :=
    Bool.eq_false_iff.2 (Ne.symm hb2)
  have hge : A.length + K.length ≤ i + kw.length := by
    by_contra hlt
    have : wordAt (A ++ K ++ B) (i + kw.length) = true :=
      (wordAt_true_iff A K B hA hB hK _).2 (by omega)
    rw [this] at hright
    exact Bool.noConfusion hright
  have hlen : kw.length = K.length := by omega
  rw [← hocc, hi, hlen, List.append_assoc, List.drop_left, List.take_left]

/-! ## Trigger-table scan characterization -/

lemma data_ne_nil {s : String} (h : s ≠ "") : s.data ≠ [] := by
  intro hd
  exact h (String.ext (hd.trans rfl))

/-- Well-formedness of a trigger table: every keyword is a non-empty
lowercase word token, and keys are unique (Python dict keys are unique; the
repository's trigger keywords are lowercase word tokens). -/
def WfTable (table : List (String × Option String)) : Prop :=
  (∀ p ∈ table, p.1 ≠ "" ∧ (∀ c ∈ p.1.data, isWordChar c = true) ∧
    pyLower p.1 = p.1) ∧
  (table.map Prod.fst).Nodup

instance : DecidablePred WfTable := fun table => by
  unfold WfTable
  infer_instance

lemma lookupTable_eq_of_mem {table : List (String × Option String)}
    {K : String} {v : Option String}
    (hnd : (table.map Prod.fst).Nodup) (hmem : (K, v) ∈ table) :
    lookupTable table K = some v := by
  induction table with
  | nil => cases hmem
  | cons hd rest ih =>
    rw [List.map_cons, List.nodup_cons] at hnd
    by_cases hk : hd.1 = K
    · unfold lookupTable
      rw [List.find?_cons_of_pos _ (by simp [hk])]
      rcases List.mem_cons.1 hmem with he | hr
      · rw [← he]
        rfl
      · exact absurd (hk ▸ List.mem_map_of_mem Prod.fst hr) hnd.1
    · rcases List.mem_cons.1 hmem with he | hr
      · exact absurd (by rw [← he]) hk
      · unfold lookupTable
        rw [List.find?_cons_of_neg _ (by simp [hk])]
        exact ih hnd.2 hr

lemma findTrigger_decomp (table : List (String × Option String))
    (K F tl : String) (A B : List Char)
    (hwfe : ∀ p ∈ table, p.1 ≠ "" ∧ (∀ c ∈ p.1.data, isWordChar c = true) ∧
      pyLower p.1 = p.1)
    (hnd : (table.map Prod.fst).Nodup)
    (hmem : (K, some F) ∈ table) (hF : F ≠ "") (hKs : K ≠ "stop")
    (hKword : ∀ c ∈ K.data, isWordChar c = true)
    (htl : tl.data = A ++ K.data ++ B)
    (hA : ∀ c ∈ A, isWordChar c = false)
    (hB : ∀ c ∈ B, isWordChar c = false) :
    findTrigger table tl = some (K, some F) := by
  have hKne : K.data ≠ [] := data_ne_nil (hwfe _ hmem).1
  have hKpred : triggerPred tl (K, some F) = true := by
    unfold triggerPred
    rw [Bool.and_eq_true, Bool.and_eq_true]
    refine ⟨⟨by simpa using hKs, by simpa [strTruthy] using hF⟩, ?_⟩
    rw [(hwfe _ hmem).2.2]
    unfold searchWord
    rw [htl]
    exact searchWordL_self A K.data B hA hB hKword hKne
  clear hF hKs
  revert hwfe hnd hmem
  induction table with
  | nil => exact fun _ _ hmem => absurd hmem (List.not_mem_nil _)
  | cons hd rest ih =>
    intro hwfe hnd hmem
    rw [List.map_cons, List.nodup_cons] at hnd
    by_cases hp : triggerPred tl hd = true
    · unfold findTrigger
      rw [List.find?_cons_of_pos _ hp]
      unfold triggerPred at hp
      rw [Bool.and_eq_true, Bool.and_eq_true] at hp
      have hhd := hwfe hd (List.mem_cons_self hd rest)
      have hsearch : searchWordL hd.1.data tl.data = true := by
        have := hp.2
        unfold searchWord at this
        rwa [hhd.2.2] at this
      rw [htl] at hsearch
      have hdK : hd.1.data = K.data :=
        searchWordL_unique hd.1.data A K.data B hA hB hKword hKne
          hhd.2.1 (data_ne_nil hhd.1) hsearch
      have hdK' : hd.1 = K := String.ext hdK
      rcases List.mem_cons.1 hmem with he | hr
      · rw [← he]
      · exact absurd (hdK' ▸ List.mem_map_of_mem Prod.fst hr) hnd.1
    · have hne' : hd ≠ (K, some F) := by
        intro he
        exact hp (he ▸ hKpred)
      rcases List.mem_cons.1 hmem with he | hr
      · exact absurd he.symm hne'
      · unfold findTrigger
        rw [List.find?_cons_of_neg _ hp]
        exact ih (fun p hp' => hwfe p (List.mem_cons_of_mem hd hp')) hnd.2 hr

/-- Claim C1 (amended): for a configured non-stop trigger keyword `K` with
truthy file `F` in a well-formed table, a transcript that consists solely of
the word `K` — any casing, any surrounding non-word characters — while `K`
is not the active mode switches `current_mode` to `K`, sets `current_file`
to `F` with `_` and the creation timestamp (year-month-day, underscore,
hour-minute-second) inserted between `F`'s stem and its extension when the
timestamp flag is set (plain `F` otherwise), fires the callback exactly once
with `(K, previous_mode, K)`, returns true, and writes nothing. -/
theorem trigger_word_switches_mode (cfg : Config) (w : World)
    (s : HandlerState) (t K F : String) (A B : List Char)
    (hcb : cfg.hasCallback = true)
    (hwf : WfTable s.trigger_words)
    (hmem : (K, some F) ∈ s.trigger_words)
    (hF : F ≠ "") (hKs : K ≠ "stop")
    (hne : pyStrip t ≠ "")
    (htl : (pyStrip (pyLower t)).data = A ++ K.data ++ B)
    (hA : ∀ c ∈ A, isWordChar c = false)
    (hB : ∀ c ∈ B, isWordChar c = false)
    (hmode : s.current_mode ≠ some K) :
    (processTranscript cfg w s t).triggered = true ∧
    (processTranscript cfg w s t).state.current_mode = some K ∧
    (cfg.enable_timestamps = true →
      (processTranscript cfg w s t).state.current_file =
        some ((splitext F).1 ++ "_" ++ strftimeTimestamp w.time ++
          (splitext F).2)) ∧
    (cfg.enable_timestamps = false →
      (processTranscript cfg w s t).state.current_file = some F) ∧
    (processTranscript cfg w s t).events = [(some K, s.current_mode, some K)] ∧
    (processTranscript cfg w s t).state.files = s.files ∧
    (processTranscript cfg w s t).state.trigger_words = s.trigger_words := by
  have hKword : ∀ c ∈ K.data, isWordChar c = true := (hwf.1 _ hmem).2.1
  have hKne : K.data ≠ [] := data_ne_nil (hwf.1 _ hmem).1
  have hstop : searchWord "stop" (pyStrip (pyLower t)) = false := by
    rw [Bool.eq_false_iff]
    intro hcontra
    unfold searchWord at hcontra
    rw [htl] at hcontra
    have hsd : ("stop" : String).data = K.data :=
      searchWordL_unique ("stop" : String).data A K.data B hA hB hKword hKne
        (by decide) (by decide) hcontra
    exact hKs (String.ext hsd).symm
  have hfind := findTrigger_decomp s.trigger_words K F
    (pyStrip (pyLower t)) A B hwf.1 hwf.2 hmem hF hKs hKword htl hA hB
  rw [processTranscript_trigger cfg w s t (K, some F) hne hstop hfind,
      switchMode_eq, if_neg (fun hc => hmode hc.symm)]
  have hsf : switchFile cfg w s (some K) =
      some (pyGetFilename cfg w.time F) := by
    simp [switchFile, lookupTable_eq_of_mem hwf.2 hmem, (hwf.1 _ hmem).1]
  refine ⟨rfl, rfl, ?_, ?_, by rw [hcb]; rfl, rfl, rfl⟩
  · intro hts
    show switchFile cfg w s (some K) = _
    rw [hsf]
    unfold pyGetFilename
    rw [hts]
    rfl
  · intro hts
    show switchFile cfg w s (some K) = _
    rw [hsf]
    unfold pyGetFilename
    rw [hts]
    rfl

/-- Counterexample to C1 as stated: with timestamps enabled, triggering
"code" (table file `code.txt`) sets `current_file` to
`code_20260101_120000.txt` — the timestamp is inserted before the `.txt`
extension, so the result is not `F` followed by a suffix: no string appended
to `code.txt` yields it. -/
theorem trigger_filename_cex :
    (processTranscript cfgTs w0 (initState defaultTable) "code").state.current_file =
      some "code_20260101_120000.txt" ∧
    (¬ ∃ suf : String, "code.txt" ++ suf = "code_20260101_120000.txt") ∧
    "code" ++ "_" ++ strftimeTimestamp w0.time ++ ".txt" =
      "code_20260101_120000.txt" := by
  refine ⟨by decide, ?_, by decide⟩
  rintro ⟨suf, h⟩
  have hd : ("code.txt".data ++ suf.data)[4]? =
      ("code_20260101_120000.txt" : String).data[4]? := by
    rw [← String.data_append, h]
  rw [List.getElem?_append_left (by decide)] at hd
  exact absurd hd (by decide)

/-- Witness for the amended C1 at concrete inputs: the transcript `"Code!"`
from a fresh default-table handler with timestamps enabled. -/
theorem trigger_word_switches_mode_witness :
    (processTranscript cfgTs w0 (initState defaultTable) "Code!").triggered = true ∧
    (processTranscript cfgTs w0 (initState defaultTable) "Code!").state.current_mode =
      some "code" ∧
    (processTranscript cfgTs w0 (initState defaultTable) "Code!").state.current_file =
      some "code_20260101_120000.txt" ∧
    (processTranscript cfgTs w0 (initState defaultTable) "Code!").events =
      [(some "code", none, some "code")] := by
  have h := trigger_word_switches_mode cfgTs w0 (initState defaultTable)
    "Code!" "code" "code.txt" [] ['!'] rfl (by decide) (by decide) (by decide)
    (by decide) (by decide) (by decide) (by decide) (by decide) (by decide)
  refine ⟨h.1, h.2.1, ?_, ?_⟩
  · have hf := h.2.2.1 rfl
    rw [hf]
    decide
  · have he := h.2.2.2.2.1
    rw [he]
    rfl

/-- Claim C5: the scan walks the trigger table in insertion order and the
first entry whose pattern matches wins: whenever the table splits as
`l1 ++ (K, F) :: l2` with every entry of `l1` failing the scan filter and
`(K, F)` passing it, the call switches to (or stays in) mode `K` and returns
true, whatever later entries of `l2` would also have matched. -/
theorem first_declared_trigger_wins (cfg : Config) (w : World)
    (s : HandlerState) (t : String) (l1 l2 : List (String × Option String))
    (K : String) (F : Option String)
    (hne : pyStrip t ≠ "")
    (hstop : searchWord "stop" (pyStrip (pyLower t)) = false)
    (htab : s.trigger_words = l1 ++ (K, F) :: l2)
    (hl1 : ∀ p ∈ l1, triggerPred (pyStrip (pyLower t)) p = false)
    (hK : triggerPred (pyStrip (pyLower t)) (K, F) = true) :
    (processTranscript cfg w s t).state.current_mode = some K ∧
    (processTranscript cfg w s t).triggered = true := by
  have hfind : findTrigger s.trigger_words (pyStrip (pyLower t)) =
      some (K, F) := by
    unfold findTrigger
    rw [htab, List.find?_append,
        List.find?_eq_none.2 (fun x hx => by rw [hl1 x hx]; exact fun hc => Bool.noConfusion hc),
        List.find?_cons_of_pos _ hK]
    rfl
  rw [processTranscript_trigger cfg w s t (K, F) hne hstop hfind,
      switchMode_eq]
  by_cases hm : (some K : Option String) = s.current_mode
  · rw [if_pos hm]
    exact ⟨hm.symm, rfl⟩
  · rw [if_neg hm]
    exact ⟨rfl, rfl⟩

/-- Witness for C5 at concrete inputs: the fragment "description code"
matches both default triggers; the scan switches to "code", the
first-declared entry of the table, even though "description" appears first
in the text. -/
theorem first_declared_trigger_wins_witness :
    (processTranscript cfg0 w0 (initState defaultTable)
      "description code").state.current_mode = some "code" ∧
    (processTranscript cfg0 w0 (initState defaultTable)
      "description code").triggered = true :=
  first_declared_trigger_wins cfg0 w0 (initState defaultTable)
    "description code" []
    [("description", some "description.txt"), ("stop", none)]
    "code" (some "code.txt") (by decide) (by decide) (by decide)
    (by intro p hp; exact absurd hp (List.not_mem_nil p)) (by decide)

/-! ## Strip idempotence -/

lemma dropWhile_dropWhile (p : Char → Bool) (l : List Char) :
    (l.dropWhile p).dropWhile p = l.dropWhile p := by
  induction l with
  | nil => rfl
  | cons a l ih =>
    by_cases h : p a
    · simp [List.dropWhile_cons, h, ih]
    · simp [List.dropWhile_cons, h]

lemma dropWhile_head_not (p : Char → Bool) (l : List Char) (hd : Char)
    (rest : List Char) (h : l.dropWhile p = hd :: rest) : p hd = false := by
  induction l with
  | nil => exact absurd h (by simp)
  | cons a l ih =>
    rw [List.dropWhile_cons] at h
    by_cases ha : p a
    · rw [if_pos ha] at h
      exact ih h
    · rw [if_neg ha] at h
      injection h with h1 _
      rw [← h1]
      exact Bool.eq_false_iff.2 ha

lemma dropWhile_suffix_decomp (p : Char → Bool) (l : List Char) :
    ∃ tk, tk ++ l.dropWhile p = l := by
  induction l with
  | nil => exact ⟨[], rfl⟩
  | cons a l ih =>
    by_cases h : p a
    · obtain ⟨tk, htk⟩ := ih
      exact ⟨a :: tk, by simp [List.dropWhile_cons, h, htk]⟩
    · exact ⟨[], by simp [List.dropWhile_cons, h]⟩

lemma stripList_idem (l : List Char) : stripList (stripList l) = stripList l := by
  unfold stripList
  have h2 : (((l.dropWhile pyIsSpace).reverse.dropWhile pyIsSpace).reverse).reverse
      = (l.dropWhile pyIsSpace).reverse.dropWhile pyIsSpace :=
    List.reverse_reverse _
  have step1 : (((l.dropWhile pyIsSpace).reverse.dropWhile pyIsSpace).reverse).dropWhile pyIsSpace
      = ((l.dropWhile pyIsSpace).reverse.dropWhile pyIsSpace).reverse := by
    cases he : ((l.dropWhile pyIsSpace).reverse.dropWhile pyIsSpace).reverse with
    | nil => simp
    | cons hd rest =>
      obtain ⟨tk, htk⟩ := dropWhile_suffix_decomp pyIsSpace (l.dropWhile pyIsSpace).reverse
      have hd_eq : ((l.dropWhile pyIsSpace).reverse.dropWhile pyIsSpace).reverse ++ tk.reverse
          = l.dropWhile pyIsSpace := by
        have := congrArg List.reverse htk
        rwa [List.reverse_append, List.reverse_reverse] at this
      rw [he] at hd_eq
      have hhd : pyIsSpace hd = false :=
        dropWhile_head_not pyIsSpace l hd (rest ++ tk.reverse)
          (by rw [← hd_eq]; simp)
      rw [List.dropWhile_cons, if_neg (by rw [hhd]; exact fun hc => Bool.noConfusion hc)]
  rw [step1, h2, dropWhile_dropWhile]

lemma pyStrip_idem (s : String) : pyStrip (pyStrip s) = pyStrip s := by
  show String.mk (stripList (stripList s.data)) = String.mk (stripList s.data)
  rw [stripList_idem]

/-- The cleaned text is either already stripped (auto-cleanup on) or the
original text (auto-cleanup off). -/
lemma cleanupTriggerWord_cases (cfg : Config) (t m : String) :
    pyStrip (cleanupTriggerWord cfg t m) = cleanupTriggerWord cfg t m ∨
    cleanupTriggerWord cfg t m = t := by
  unfold cleanupTriggerWord
  split
  · exact Or.inl (pyStrip_idem _)
  · exact Or.inr rfl

/-- Claim C3 (amended): a transcript matching neither the stop pattern nor
any trigger returns false, fires no callback and leaves mode, file and table
unchanged.  While a truthy mode with a truthy file is active, the line
appended to `current_file` (under the output directory, create-if-absent) is
`cleanupTriggerWord` of the transcript: with auto-cleanup enabled this
removes every word-bounded occurrence of the active mode's keyword, strips
surrounding whitespace and leading punctuation; with it disabled the
original text goes through verbatim; the write is skipped when the cleaned
text is empty.  While no truthy mode or file is active, no file write
occurs. -/
theorem passthrough_append (cfg : Config) (w : World) (s : HandlerState)
    (t : String)
    (hw : w.writeFails = false)
    (hne : pyStrip t ≠ "")
    (hstop : searchWord "stop" (pyStrip (pyLower t)) = false)
    (hfind : findTrigger s.trigger_words (pyStrip (pyLower t)) = none) :
    (processTranscript cfg w s t).triggered = false ∧
    (processTranscript cfg w s t).events = [] ∧
    (processTranscript cfg w s t).state.current_mode = s.current_mode ∧
    (processTranscript cfg w s t).state.current_file = s.current_file ∧
    (processTranscript cfg w s t).state.trigger_words = s.trigger_words ∧
    (∀ m f, s.current_mode = some m → m ≠ "" → s.current_file = some f →
      f ≠ "" →
      ((cleanupTriggerWord cfg t m = "" →
        (processTranscript cfg w s t).state.files = s.files) ∧
       (cleanupTriggerWord cfg t m ≠ "" →
        (processTranscript cfg w s t).state.files =
          appendLine s.files (pyJoin cfg.output_directory f)
            (cleanupTriggerWord cfg t m)))) ∧
    (strTruthy s.current_mode = false ∨ strTruthy s.current_file = false →
      (processTranscript cfg w s t).state.files = s.files) ∧
    (∀ (fs : Files) (pa ln : String), fs.any (fun q => q.1 = pa) = false →
      appendLine fs pa ln = fs ++ [(pa, [ln])]) := by
  have happ : ∀ (fs : Files) (pa ln : String),
      fs.any (fun q => q.1 = pa) = false →
      appendLine fs pa ln = fs ++ [(pa, [ln])] := by
    intro fs pa ln hnone
    unfold appendLine
    rw [if_neg (by rw [hnone]; exact fun hc => Bool.noConfusion hc)]
  by_cases hact : strTruthy s.current_mode = true ∧ strTruthy s.current_file = true
  · rw [processTranscript_nomatch_active cfg w s t hne hstop hfind hact.1 hact.2]
    by_cases hcl : cleanupTriggerWord cfg t (s.current_mode.getD "") = ""
    · rw [if_pos hcl]
      refine ⟨rfl, rfl, rfl, rfl, rfl, ?_, fun _ => rfl, happ⟩
      intro m f hm _ _ _
      rw [hm] at hcl
      exact ⟨fun _ => rfl, fun hc => absurd hcl hc⟩
    · rw [if_neg hcl]
      refine ⟨rfl, rfl, rfl, rfl, rfl, ?_, ?_, happ⟩
      · intro m f hm hm0 hf hf0
        rw [hm] at hcl ⊢
        refine ⟨fun hc => absurd hc hcl, fun _ => ?_⟩
        show writeToFile w cfg.output_directory s.current_file s.files
          (cleanupTriggerWord cfg t m) = _
        rw [hf]
        have hstrip : pyStrip (cleanupTriggerWord cfg t m) ≠ "" := by
          rcases cleanupTriggerWord_cases cfg t m with hs | hs
          · rw [hs]
            exact hcl
          · rw [hs]
            exact hne
        simp [writeToFile, rawAppend, hw, hf0, hstrip]
      · intro hmf
        exfalso
        rcases hmf with hmf | hmf
        · rw [hact.1] at hmf
          exact Bool.noConfusion hmf
        · rw [hact.2] at hmf
          exact Bool.noConfusion hmf
  · rw [processTranscript_nomatch_inactive cfg w s t hne hstop hfind hact]
    refine ⟨rfl, rfl, rfl, rfl, rfl, ?_, fun _ => rfl, happ⟩
    intro m f hm hm0 hf hf0
    exfalso
    apply hact
    constructor
    · rw [hm]
      simpa [strTruthy] using hm0
    · rw [hf]
      simpa [strTruthy] using hf0

/-- Counterexample to C3 as stated: auto-cleanup does not only strip a stray
leading keyword occurrence.  With mode "code" dangling (trigger removed), a
mid-sentence occurrence in "say code now" is removed and "say  now" is
written; and a keyword-free fragment "  ...hello  " is written as "hello"
with its surrounding whitespace and leading punctuation stripped — neither
line is the verbatim transcript. -/
theorem passthrough_append_cex :
    (processTranscript cfg0 w0 (removeTriggerWord sCode "code")
      "say code now").state.files = [("./code.txt", ["say  now"])] ∧
    "say  now" ≠ "say code now" ∧
    (processTranscript cfg0 w0 sCode "  ...hello  ").state.files =
      [("./code.txt", ["hello"])] ∧
    "hello" ≠ "  ...hello  " := by decide

/-- Witness for the amended C3 at concrete inputs. -/
theorem passthrough_append_witness :
    (processTranscript cfg0 w0 sCode "  ...hello  ").triggered = false ∧
    (processTranscript cfg0 w0 sCode "  ...hello  ").state.files =
      appendLine sCode.files "./code.txt" "hello" := by
  have h := passthrough_append cfg0 w0 sCode "  ...hello  " rfl (by decide)
    (by decide) (by decide)
  refine ⟨h.1, ?_⟩
  have h6 := (h.2.2.2.2.2.1 "code" "code.txt" (by decide) (by decide)
    (by decide) (by decide)).2 (by decide)
  rw [h6]
  decide

/-! ## Reachable states -/

/-- States reachable from construction through arbitrary
`process_transcript`, `reset`, `add_trigger_word` and `remove_trigger_word`
calls. -/
inductive ReachA (cfg : Config) : HandlerState → Prop where
  | init (table : List (String × Option String)) : ReachA cfg (initState table)
  | step {s : HandlerState} (w : World) (t : String) :
      ReachA cfg s → ReachA cfg (processTranscript cfg w s t).state
  | reset {s : HandlerState} : ReachA cfg s → ReachA cfg (resetState s)
  | add {s : HandlerState} (k : String) (f : Option String) :
      ReachA cfg s → ReachA cfg (addTriggerWord s k f)
  | remove {s : HandlerState} (k : String) :
      ReachA cfg s → ReachA cfg (removeTriggerWord s k)

/-- Reachability restricted to non-empty trigger keywords: the constructor
table has non-empty, unique keys (Python dict keys are unique) and every
`add_trigger_word` call passes a non-empty keyword. -/
inductive ReachN (cfg : Config) : HandlerState → Prop where
  | init (table : List (String × Option String))
      (hk : ∀ p ∈ table, p.1 ≠ "") (hnd : (table.map Prod.fst).Nodup) :
      ReachN cfg (initState table)
  | step {s : HandlerState} (w : World) (t : String) :
      ReachN cfg s → ReachN cfg (processTranscript cfg w s t).state
  | reset {s : HandlerState} : ReachN cfg s → ReachN cfg (resetState s)
  | add {s : HandlerState} (k : String) (f : Option String) (hk : k ≠ "") :
      ReachN cfg s → ReachN cfg (addTriggerWord s k f)
  | remove {s : HandlerState} (k : String) :
      ReachN cfg s → ReachN cfg (removeTriggerWord s k)

/-- Outcomes of one `processTranscript` call on mode, file and table:
unchanged, deactivated, or switched to a scanned trigger. -/
lemma processTranscript_state_cases (cfg : Config) (w : World)
    (s : HandlerState) (t : String) :
    ((processTranscript cfg w s t).state.current_mode = s.current_mode ∧
     (processTranscript cfg w s t).state.current_file = s.current_file ∧
     (processTranscript cfg w s t).state.trigger_words = s.trigger_words) ∨
    ((processTranscript cfg w s t).state.current_mode = none ∧
     (processTranscript cfg w s t).state.current_file = none ∧
     (processTranscript cfg w s t).state.trigger_words = s.trigger_words) ∨
    (∃ p, findTrigger s.trigger_words (pyStrip (pyLower t)) = some p ∧
     (processTranscript cfg w s t).state.current_mode = some p.1 ∧
     (processTranscript cfg w s t).state.current_file =
       switchFile cfg w s (some p.1) ∧
     (processTranscript cfg w s t).state.trigger_words = s.trigger_words) := by
  by_cases h1 : pyStrip t = ""
  · rw [processTranscript_blank cfg w s t h1]
    exact Or.inl ⟨rfl, rfl, rfl⟩
  · by_cases h2 : searchWord "stop" (pyStrip (pyLower t)) = true
    · by_cases h3 : strTruthy s.current_mode = true
      · rw [processTranscript_stop_active cfg w s t h1 h2 h3, switchMode_eq]
        split
        · exact Or.inl ⟨rfl, rfl, rfl⟩
        · exact Or.inr (Or.inl ⟨rfl, rfl, rfl⟩)
      · rw [processTranscript_stop_inactive cfg w s t h1 h2
              (Bool.not_eq_true _ ▸ h3)]
        exact Or.inl ⟨rfl, rfl, rfl⟩
    · cases hfind : findTrigger s.trigger_words (pyStrip (pyLower t)) with
      | some p =>
        rw [processTranscript_trigger cfg w s t p h1
              (Bool.not_eq_true _ ▸ h2) hfind, switchMode_eq]
        split
        · exact Or.inl ⟨rfl, rfl, rfl⟩
        · exact Or.inr (Or.inr ⟨p, rfl, rfl, rfl, rfl⟩)
      | none =>
        by_cases h4 : strTruthy s.current_mode = true ∧
            strTruthy s.current_file = true
        · rw [processTranscript_nomatch_active cfg w s t h1
                (Bool.not_eq_true _ ▸ h2) hfind h4.1 h4.2]
          split
          · exact Or.inl ⟨rfl, rfl, rfl⟩
          · exact Or.inl ⟨rfl, rfl, rfl⟩
        · rw [processTranscript_nomatch_inactive cfg w s t h1
                (Bool.not_eq_true _ ▸ h2) hfind h4]
          exact Or.inl ⟨rfl, rfl, rfl⟩

/-- Claim C9: in every reachable state — arbitrary construction table, any
sequence of `process_transcript`, `reset`, `add_trigger_word` (including
`add_trigger_word("stop", filename)`) and `remove_trigger_word` calls —
`current_mode` is never the string "stop": the stop word is handled as
deactivation before the scan, and the scan skips the "stop" entry. -/
theorem mode_never_stop {cfg : Config} {s : HandlerState}
    (h : ReachA cfg s) : s.current_mode ≠ some "stop" := by
  induction h with
  | init table => exact fun hc => Option.noConfusion hc
  | step w t hr ih =>
    rename_i s'
    rcases processTranscript_state_cases cfg w s' t with
      ⟨hm, -, -⟩ | ⟨hm, -, -⟩ | ⟨p, hfind, hm, -, -⟩
    · rw [hm]; exact ih
    · rw [hm]; exact fun hc => Option.noConfusion hc
    · rw [hm]
      have hfind' : s'.trigger_words.find?
          (triggerPred (pyStrip (pyLower t))) = some p := hfind
      have hpred := List.find?_some hfind'
      unfold triggerPred at hpred
      rw [Bool.and_eq_true, Bool.and_eq_true, decide_eq_true_iff] at hpred
      intro hc
      injection hc with hc1
      exact hpred.1.1 hc1
  | reset hr ih => exact fun hc => Option.noConfusion hc
  | add k f hr ih => exact ih
  | remove k hr ih => exact ih

/-- Witness for C9: after installing a filename for "stop" and processing a
fragment containing both "stop" and "code", the mode is still not "stop". -/
theorem mode_never_stop_witness :
    (processTranscript cfg0 w0 (addTriggerWord (initState defaultTable)
      "stop" (some "stop.txt")) "stop and code").state.current_mode ≠
      some "stop" :=
  mode_never_stop (ReachA.step w0 "stop and code"
    (ReachA.add "stop" (some "stop.txt") (ReachA.init defaultTable)))

/-! ## The mode/file invariant (claim C7) -/

/-- Invariant carried through the restricted reachability: non-empty unique
keys, the nullity equivalence of mode and file, and the derived shape of the
active file name. -/
def InvC7 (cfg : Config) (s : HandlerState) : Prop :=
  (∀ p ∈ s.trigger_words, p.1 ≠ "") ∧
  (s.trigger_words.map Prod.fst).Nodup ∧
  (s.current_mode = none ↔ s.current_file = none) ∧
  (∀ k, s.current_mode = some k → k ≠ "" ∧
    ∃ base tm sw, ReachN cfg sw ∧
      sw.current_mode = some k ∧
      sw.current_file = s.current_file ∧
      lookupTable sw.trigger_words k = some (some base) ∧
      base ≠ "" ∧
      s.current_file = some (pyGetFilename cfg tm base))

lemma assocSet_keys {l : List (String × Option String)} {k : String}
    {v : Option String} (hl : ∀ p ∈ l, p.1 ≠ "") (hk : k ≠ "") :
    ∀ p ∈ assocSet l k v, p.1 ≠ "" := by
  intro p hp
  unfold assocSet at hp
  split at hp
  · obtain ⟨q, hq, hqe⟩ := List.mem_map.1 hp
    by_cases hqk : q.1 = k
    · rw [← hqe, if_pos hqk]
      exact hk
    · rw [← hqe, if_neg hqk]
      exact hl q hq
  · rcases List.mem_append.1 hp with hin | hin
    · exact hl p hin
    · rcases List.mem_singleton.1 hin with rfl
      exact hk

lemma assocSet_nodup {l : List (String × Option String)} {k : String}
    {v : Option String} (hnd : (l.map Prod.fst).Nodup) :
    ((assocSet l k v).map Prod.fst).Nodup := by
  unfold assocSet
  split
  · have : (l.map (fun p => if p.1 = k then (k, v) else p)).map Prod.fst =
        l.map Prod.fst := by
      rw [List.map_map]
      refine List.map_congr_left ?_
      intro q _
      by_cases hqk : q.1 = k
      · simp [Function.comp, hqk]
      · simp [Function.comp, hqk]
    rw [this]
    exact hnd
  · rename_i hany
    rw [List.map_append, List.nodup_append]
    refine ⟨hnd, List.nodup_singleton k, ?_⟩
    intro a ha hb
    rcases List.mem_singleton.1 hb with rfl
    obtain ⟨q, hq, hqe⟩ := List.mem_map.1 ha
    exact hany (List.any_eq_true.2 ⟨q, hq, by simp [hqe]⟩)

lemma reachN_inv {cfg : Config} {s : HandlerState} (h : ReachN cfg s) :
    InvC7 cfg s := by
  induction h with
  | init table hk hnd =>
    exact ⟨hk, hnd, Iff.rfl, fun k hc => Option.noConfusion hc⟩
  | step w t hr ih =>
    rename_i s'
    obtain ⟨ihk, ihnd, ihiff, ihderiv⟩ := ih
    rcases processTranscript_state_cases cfg w s' t with
      ⟨hm, hf, htb⟩ | ⟨hm, hf, htb⟩ | ⟨p, hfind, hm, hf, htb⟩
    · refine ⟨htb ▸ ihk, htb ▸ ihnd, ?_, ?_⟩
      · rw [hm, hf]; exact ihiff
      · intro k hk
        rw [hm] at hk
        obtain ⟨hk0, base, tm, sw, hswR, hswm, hswf, hlk2, hb, hfe⟩ :=
          ihderiv k hk
        refine ⟨hk0, base, tm, sw, hswR, hswm, ?_, hlk2, hb, ?_⟩
        · rw [hf]
          exact hswf
        · rw [hf]
          exact hfe
    · refine ⟨htb ▸ ihk, htb ▸ ihnd, ?_, ?_⟩
      · rw [hm, hf]
      · intro k hk
        rw [hm] at hk
        exact absurd hk (fun hc => Option.noConfusion hc)
    · have hfind' : s'.trigger_words.find?
          (triggerPred (pyStrip (pyLower t))) = some p := hfind
      have hpred := List.find?_some hfind'
      have hpmem := List.mem_of_find?_eq_some hfind'
      unfold triggerPred at hpred
      rw [Bool.and_eq_true, Bool.and_eq_true, decide_eq_true_iff] at hpred
      obtain ⟨fb, hfb, hfb0⟩ := strTruthy_some hpred.1.2
      have hp1 : p.1 ≠ "" := ihk p hpmem
      have hlk : lookupTable s'.trigger_words p.1 = some p.2 :=
        lookupTable_eq_of_mem ihnd hpmem
      have hsf : switchFile cfg w s' (some p.1) =
          some (pyGetFilename cfg w.time fb) := by
        simp [switchFile, hlk, hp1, hfb]
      refine ⟨htb ▸ ihk, htb ▸ ihnd, ?_, ?_⟩
      · rw [hm, hf, hsf]
        constructor
        · exact fun hc => absurd hc (fun hc2 => Option.noConfusion hc2)
        · exact fun hc => absurd hc (fun hc2 => Option.noConfusion hc2)
      · intro k hk
        rw [hm] at hk
        injection hk with hk1
        subst hk1
        refine ⟨hp1, fb, w.time, (processTranscript cfg w s' t).state,
          ReachN.step w t hr, hm, rfl, ?_, hfb0, ?_⟩
        · rw [htb, hlk, hfb]
        · rw [hf, hsf]
  | reset hr ih =>
    exact ⟨ih.1, ih.2.1, Iff.rfl, fun k hc => Option.noConfusion hc⟩
  | add k f hk hr ih =>
    exact ⟨assocSet_keys ih.1 hk, assocSet_nodup ih.2.1, ih.2.2.1, ih.2.2.2⟩
  | remove k hr ih =>
    refine ⟨?_, ?_, ih.2.2.1, ih.2.2.2⟩
    · intro p hp
      exact ih.1 p (List.mem_of_mem_filter hp)
    · exact List.Nodup.sublist
        (List.Sublist.map Prod.fst (List.filter_sublist _)) ih.2.1

/-- Claim C7 (amended): in every state reachable from construction through
`process_transcript`, `reset`, `add_trigger_word` and `remove_trigger_word`
calls, provided the constructor table and every added trigger keyword are
non-empty (constructor keys unique, as Python dict keys are),
`current_file` is non-null iff `current_mode` is non-null; and while mode
`k` is active, `current_file` is `pyGetFilename` (the timestamp policy) of a
non-empty base filename that the trigger table assigned to `k` at the time
of the switch: in the reachable state `sw` the switch produced — same
active mode `k`, same `current_file`, untouched since — the table entry for
`k` is exactly that base. -/
theorem mode_file_invariant {cfg : Config} {s : HandlerState}
    (h : ReachN cfg s) :
    (s.current_file ≠ none ↔ s.current_mode ≠ none) ∧
    (∀ k, s.current_mode = some k →
      ∃ base tm sw, ReachN cfg sw ∧
        sw.current_mode = some k ∧
        sw.current_file = s.current_file ∧
        lookupTable sw.trigger_words k = some (some base) ∧
        base ≠ "" ∧
        s.current_file = some (pyGetFilename cfg tm base)) := by
  have hi := reachN_inv h
  exact ⟨not_iff_not.2 hi.2.2.1.symm, fun k hk => (hi.2.2.2 k hk).2⟩

/-- Counterexample to C7 as stated: the claim quantifies over arbitrary
`add_trigger_word` calls, and `add_trigger_word("", "x.txt")` breaks the
invariant — the empty keyword's pattern matches any fragment with a word
character, the mode becomes the (non-null) empty string, but the Python
truthiness test in `_switch_mode` leaves `current_file` as None. -/
theorem mode_file_invariant_cex :
    (processTranscript cfg0 w0 (addTriggerWord (initState defaultTable) ""
      (some "x.txt")) "hello").state.current_mode = some "" ∧
    (processTranscript cfg0 w0 (addTriggerWord (initState defaultTable) ""
      (some "x.txt")) "hello").state.current_file = none := by decide

/-- Witness for the amended C7 at a concrete reachable state. -/
theorem mode_file_invariant_witness :
    ((sCode.current_file ≠ none ↔ sCode.current_mode ≠ none) ∧
     ∃ base tm sw, ReachN cfg0 sw ∧
       sw.current_mode = some "code" ∧
       sw.current_file = sCode.current_file ∧
       lookupTable sw.trigger_words "code" = some (some base) ∧
       base ≠ "" ∧
       sCode.current_file = some (pyGetFilename cfg0 tm base)) := by
  have h := @mode_file_invariant cfg0 _ (ReachN.step w0 "code"
    (ReachN.init defaultTable (by decide) (by decide)))
  exact ⟨h.1, h.2 "code" (by decide)⟩

/-! ## Claim C10: timestamped sessions and `get_output_files` -/

lemma ne_of_data_get (s t : String) (i : Nat)
    (h : s.data[i]? ≠ t.data[i]?) : s ≠ t :=
  fun he => h (by rw [he])

lemma pyJoin_dot (f : String) (hf : startsWithSep f = false) :
    pyJoin "." f = "." ++ "/" ++ f := by
  unfold pyJoin
  rw [hf]
  rw [if_neg (fun hc => Bool.noConfusion hc), if_neg (by decide)]

lemma pyGetFilename_code (tm : PyTime) :
    pyGetFilename cfgTs tm "code.txt" =
      "code_" ++ (strftimeTimestamp tm ++ ".txt") := by
  show ("code" : String) ++ "_" ++ strftimeTimestamp tm ++ ".txt" =
    "code_" ++ (strftimeTimestamp tm ++ ".txt")
  rw [String.append_assoc]
  rfl

lemma pyGetFilename_descr (tm : PyTime) :
    pyGetFilename cfgTs tm "description.txt" =
      "description_" ++ (strftimeTimestamp tm ++ ".txt") := by
  show ("description" : String) ++ "_" ++ strftimeTimestamp tm ++ ".txt" =
    "description_" ++ (strftimeTimestamp tm ++ ".txt")
  rw [String.append_assoc]
  rfl

lemma startsWithSep_code (X : String) :
    startsWithSep ("code_" ++ X) = false := by
  unfold startsWithSep
  rw [String.data_append,
      show ("code_" : String).data = 'c' :: 'o' :: 'd' :: 'e' :: '_' :: [] from rfl,
      List.cons_append]
  rfl

lemma startsWithSep_descr (X : String) :
    startsWithSep ("description_" ++ X) = false := by
  unfold startsWithSep
  rw [String.data_append,
      show ("description_" : String).data =
        'd' :: 'e' :: 's' :: 'c' :: 'r' :: 'i' :: 'p' :: 't' :: 'i' :: 'o' :: 'n' :: '_' :: [] from rfl,
      List.cons_append]
  rfl

lemma joined_code_ne (X : String) :
    ("." ++ "/" ++ ("code_" ++ X) : String) ≠ "./code.txt" ∧
    ("." ++ "/" ++ ("code_" ++ X) : String) ≠ "./description.txt" := by
  constructor <;>
  · intro he
    have hd := congrArg String.data he
    rw [String.data_append, String.data_append, String.data_append,
        show ("." : String).data = ['.'] from rfl,
        show ("/" : String).data = ['/'] from rfl,
        show ("code_" : String).data = ['c', 'o', 'd', 'e', '_'] from rfl] at hd
    simp at hd

lemma joined_descr_ne (X : String) :
    ("." ++ "/" ++ ("description_" ++ X) : String) ≠ "./code.txt" ∧
    ("." ++ "/" ++ ("description_" ++ X) : String) ≠ "./description.txt" := by
  constructor <;>
  · intro he
    have hd := congrArg String.data he
    rw [String.data_append, String.data_append, String.data_append,
        show ("." : String).data = ['.'] from rfl,
        show ("/" : String).data = ['/'] from rfl,
        show ("description_" : String).data =
          ['d', 'e', 's', 'c', 'r', 'i', 'p', 't', 'i', 'o', 'n', '_'] from rfl] at hd
    simp at hd

lemma appendLine_keys {fs : Files} {pa ln : String} {q : String × List String}
    (hq : q ∈ appendLine fs pa ln) :
    q.1 = pa ∨ ∃ q' ∈ fs, q.1 = q'.1 := by
  unfold appendLine at hq
  split at hq
  · obtain ⟨q', hq', hqe⟩ := List.mem_map.1 hq
    by_cases h : q'.1 = pa
    · rw [← hqe, if_pos h]
      exact Or.inl h
    · rw [← hqe, if_neg h]
      exact Or.inr ⟨q', hq', rfl⟩
  · rcases List.mem_append.1 hq with hin | hin
    · exact Or.inr ⟨q, hin, rfl⟩
    · rcases List.mem_singleton.1 hin with rfl
      exact Or.inl rfl

lemma writeToFile_cases (w : World) (dir f : String) (fs : Files)
    (text : String) :
    writeToFile w dir (some f) fs text = fs ∨
    writeToFile w dir (some f) fs text = appendLine fs (pyJoin dir f) text := by
  simp only [writeToFile, rawAppend]
  by_cases hcond : f = "" ∨ pyStrip text = ""
  · rw [if_pos hcond]
    exact Or.inl rfl
  · rw [if_neg hcond]
    cases hwf : w.writeFails with
    | true => exact Or.inl rfl
    | false => exact Or.inr rfl

lemma processTranscript_files_cases (cfg : Config) (w : World)
    (s : HandlerState) (t : String) :
    (processTranscript cfg w s t).state.files = s.files ∨
    ∃ f, s.current_file = some f ∧
      (processTranscript cfg w s t).state.files =
        writeToFile w cfg.output_directory (some f) s.files
          (cleanupTriggerWord cfg t (s.current_mode.getD "")) := by
  by_cases h1 : pyStrip t = ""
  · rw [processTranscript_blank cfg w s t h1]
    exact Or.inl rfl
  · by_cases h2 : searchWord "stop" (pyStrip (pyLower t)) = true
    · by_cases h3 : strTruthy s.current_mode = true
      · rw [processTranscript_stop_active cfg w s t h1 h2 h3]
        exact Or.inl (switchMode_files cfg w s none (some "stop"))
      · rw [processTranscript_stop_inactive cfg w s t h1 h2
              (Bool.not_eq_true _ ▸ h3)]
        exact Or.inl rfl
    · cases hfind : findTrigger s.trigger_words (pyStrip (pyLower t)) with
      | some p =>
        rw [processTranscript_trigger cfg w s t p h1
              (Bool.not_eq_true _ ▸ h2) hfind]
        exact Or.inl (switchMode_files cfg w s (some p.1) (some p.1))
      | none =>
        by_cases h4 : strTruthy s.current_mode = true ∧
            strTruthy s.current_file = true
        · rw [processTranscript_nomatch_active cfg w s t h1
                (Bool.not_eq_true _ ▸ h2) hfind h4.1 h4.2]
          split
          · exact Or.inl rfl
          · obtain ⟨f, hf, -⟩ := strTruthy_some h4.2
            refine Or.inr ⟨f, hf, ?_⟩
            rw [← hf]
        · rw [processTranscript_nomatch_inactive cfg w s t h1
                (Bool.not_eq_true _ ▸ h2) hfind h4]
          exact Or.inl rfl

/-- Invariant for C10: the table is the default one, an active file is a
timestamped variant of a default base name, and no file under the output
directory bears one of the two base names `get_output_files` probes. -/
def C10Inv (s : HandlerState) : Prop :=
  s.trigger_words = defaultTable ∧
  (s.current_file = none ∨ ∃ tm base,
    (base = "code.txt" ∨ base = "description.txt") ∧
    s.current_file = some (pyGetFilename cfgTs tm base)) ∧
  (∀ q ∈ s.files, q.1 ≠ "./code.txt" ∧ q.1 ≠ "./description.txt")

lemma c10_step (w : World) (t : String) {s : HandlerState} (h : C10Inv s) :
    C10Inv (processTranscript cfgTs w s t).state := by
  obtain ⟨htab, hfile, hkeys⟩ := h
  refine ⟨?_, ?_, ?_⟩
  · rcases processTranscript_state_cases cfgTs w s t with
      ⟨-, -, htb⟩ | ⟨-, -, htb⟩ | ⟨-, -, -, -, htb⟩ <;> rw [htb] <;> exact htab
  · rcases processTranscript_state_cases cfgTs w s t with
      ⟨-, hf, -⟩ | ⟨-, hf, -⟩ | ⟨p, hfind, -, hf, -⟩
    · rw [hf]
      exact hfile
    · rw [hf]
      exact Or.inl rfl
    · have hfind' : s.trigger_words.find?
          (triggerPred (pyStrip (pyLower t))) = some p := hfind
      have hpred := List.find?_some hfind'
      have hpmem := List.mem_of_find?_eq_some hfind'
      unfold triggerPred at hpred
      rw [Bool.and_eq_true, Bool.and_eq_true, decide_eq_true_iff] at hpred
      rw [htab] at hpmem
      have hcases : p = ("code", some "code.txt") ∨
          p = ("description", some "description.txt") ∨ p = ("stop", none) := by
        simpa [defaultTable] using hpmem
      rcases hcases with rfl | rfl | rfl
      · have hlk : lookupTable s.trigger_words "code" =
            some (some "code.txt") := by
          rw [htab]
          decide
        have hsf : switchFile cfgTs w s (some "code") =
            some (pyGetFilename cfgTs w.time "code.txt") := by
          simp [switchFile, hlk]
        rw [hf, hsf]
        exact Or.inr ⟨w.time, "code.txt", Or.inl rfl, rfl⟩
      · have hlk : lookupTable s.trigger_words "description" =
            some (some "description.txt") := by
          rw [htab]
          decide
        have hsf : switchFile cfgTs w s (some "description") =
            some (pyGetFilename cfgTs w.time "description.txt") := by
          simp [switchFile, hlk]
        rw [hf, hsf]
        exact Or.inr ⟨w.time, "description.txt", Or.inr rfl, rfl⟩
      · exact absurd hpred.1.2 (by decide)
  · rcases processTranscript_files_cases cfgTs w s t with hfs | ⟨f, hcf, hfs⟩
    · rw [hfs]
      exact hkeys
    · rcases writeToFile_cases w cfgTs.output_directory f s.files
        (cleanupTriggerWord cfgTs t (s.current_mode.getD "")) with hw2 | hw2
      · rw [hfs, hw2]
        exact hkeys
      · intro q hq
        rw [hfs, hw2] at hq
        rcases appendLine_keys hq with hqp | ⟨q', hq', hqe⟩
        · rcases hfile with hnone | ⟨tm, base, hbase, hfe⟩
          · rw [hcf] at hnone
            exact absurd hnone (fun hc => Option.noConfusion hc)
          · rw [hcf] at hfe
            have hfeq : f = pyGetFilename cfgTs tm base := Option.some.inj hfe
            rcases hbase with rfl | rfl
            · rw [pyGetFilename_code tm] at hfeq
              have hjoin : pyJoin cfgTs.output_directory f =
                  "." ++ "/" ++ ("code_" ++ (strftimeTimestamp tm ++ ".txt")) := by
                rw [hfeq]
                exact pyJoin_dot _ (startsWithSep_code _)
              rw [hjoin] at hqp
              rw [hqp]
              exact joined_code_ne _
            · rw [pyGetFilename_descr tm] at hfeq
              have hjoin : pyJoin cfgTs.output_directory f =
                  "." ++ "/" ++ ("description_" ++ (strftimeTimestamp tm ++ ".txt")) := by
                rw [hfeq]
                exact pyJoin_dot _ (startsWithSep_descr _)
              rw [hjoin] at hqp
              rw [hqp]
              exact joined_descr_ne _
        · rw [hqe]
          exact hkeys q' hq'

lemma c10_run (inputs : List (World × String)) :
    ∀ s : HandlerState, C10Inv s → C10Inv (runProc cfgTs inputs s) := by
  induction inputs with
  | nil => exact fun s h => h
  | cons hd tl ih => exact fun s h => ih _ (c10_step hd.1 hd.2 h)

lemma c10_empty {s : HandlerState} (h : C10Inv s) :
    getOutputFiles cfgTs s = [] := by
  obtain ⟨htab, -, hkeys⟩ := h
  have hj1 : pyJoin cfgTs.output_directory "code.txt" = "./code.txt" := by
    decide
  have hj2 : pyJoin cfgTs.output_directory "description.txt" =
      "./description.txt" := by decide
  have h1 : s.files.any
      (fun q => q.1 = pyJoin cfgTs.output_directory "code.txt") = false := by
    rw [List.any_eq_false]
    intro q hq
    rw [decide_eq_true_iff, hj1]
    exact (hkeys q hq).1
  have h2 : s.files.any
      (fun q => q.1 = pyJoin cfgTs.output_directory "description.txt") = false := by
    rw [List.any_eq_false]
    intro q hq
    rw [decide_eq_true_iff, hj2]
    exact (hkeys q hq).2
  unfold getOutputFiles
  rw [htab]
  simp [defaultTable, List.filterMap_cons, List.filterMap_nil, h1, h2,
    (show ("code.txt" : String) ≠ "" from by decide),
    (show ("description.txt" : String) ≠ "" from by decide)]

/-- The demonstration sequence for C10: enter code mode, then dictate one
fragment. -/
def demoInputs : List (World × String) := [(w0, "code"), (w0, "hello world")]

/-- Claim C10: with the timestamp flag enabled, `get_output_files` probes
only each table entry's base filename, never the timestamped name a mode
session actually writes to.  From a fresh default handler, after any
sequence of `process_transcript` calls the returned list is empty; the
demonstration sequence leaves a non-empty output file on disk while
`get_output_files` still returns nothing. -/
theorem timestamped_files_never_listed :
    (∀ inputs : List (World × String),
      getOutputFiles cfgTs (runProc cfgTs inputs (initState defaultTable)) = []) ∧
    (runProc cfgTs demoInputs (initState defaultTable)).files =
      [("./code_20260101_120000.txt", ["hello world"])] ∧
    getOutputFiles cfgTs (runProc cfgTs demoInputs (initState defaultTable)) = [] := by
  refine ⟨?_, by decide, by decide⟩
  intro inputs
  exact c10_empty (c10_run inputs (initState defaultTable)
    ⟨rfl, Or.inl rfl, fun q hq => absurd hq (List.not_mem_nil q)⟩)
